import Mathlib

/-!
Verification of the uncertainty scoring and mask-derivation engine of
`mask_analysis_darc` (files `EdgeUncertaintyAnalysis.py` and
`EdgeUncertaintyMaskCreation.py`).

A probability volume is embedded as a flat list of rational voxel values
(the spatial shape is irrelevant for every property considered here);
the per-case metric mapping as a list of (case id, metric value) pairs.
Floating-point arithmetic of the source is modelled by exact rational
arithmetic.
-/

namespace MaskAnalysis

/-- A probability volume: the flattened voxel array returned by the
volume reader (nibabel `get_fdata`). -/
abbrev Volume := List ℚ

/-! ### Voxel classification

`EdgeUncertaintyMaskCreation.py`, lines 40-43:
`background_mask = (prob_data == 0)`,
`uncertain_mask = (prob_data > 0) & (prob_data < 1)`,
`certain_fg_mask = (prob_data > 0) & ~uncertain_mask`. -/

/-- `background_mask`: voxel value equal to 0. -/
def backgroundMask (p : ℚ) : Prop := p = 0

/-- `uncertain_mask`: voxel value strictly between 0 and 1. -/
def uncertainMask (p : ℚ) : Prop := 0 < p ∧ p < 1

/-- `certain_fg_mask`: positive voxel value that is not uncertain. -/
def certainFgMask (p : ℚ) : Prop := 0 < p ∧ ¬ uncertainMask p

instance (p : ℚ) : Decidable (backgroundMask p) := by
  unfold backgroundMask; infer_instance

instance (p : ℚ) : Decidable (uncertainMask p) := by
  unfold uncertainMask; infer_instance

instance (p : ℚ) : Decidable (certainFgMask p) := by
  unfold certainFgMask; infer_instance

/-! ### Metric calculator

`EdgeUncertaintyAnalysis.py`, `calculate_edge_fuzziness`, lines 104-124. -/

/-- `uncertain_voxels = data[(data > 0) & (data < 1)]`. -/
def uncertain_voxels (data : Volume) : List ℚ :=
  data.filter fun p => decide (uncertainMask p)

/-- `mean_uncertainty`: `np.mean(1 - uncertain_voxels)` when at least one
uncertain voxel exists, `0.0` otherwise (lines 113-116). -/
def mean_uncertainty (data : Volume) : ℚ :=
  let u := uncertain_voxels data
  if 0 < u.length then ((u.map fun p => 1 - p).sum) / (u.length : ℚ) else 0

/-- `sum_probabilities = np.sum(data)` (line 120). -/
def sum_probabilities (data : Volume) : ℚ := data.sum

/-- `np.sum(data > 0)`: number of strictly positive voxels. -/
def count_nonzero (data : Volume) : ℕ :=
  (data.filter fun p => decide (0 < p)).length

/-- `sum_uncertainties = np.sum(data > 0) - sum_probabilities` (line 121). -/
def sum_uncertainties (data : Volume) : ℚ :=
  (count_nonzero data : ℚ) - sum_probabilities data

/-- `count_uncertain = len(uncertain_voxels)` (line 124). -/
def count_uncertain (data : Volume) : ℕ := (uncertain_voxels data).length

/-! ### Claims C3, C4, C5 -/

/-- C3: for every probability volume, `sum_uncertainties` equals the count
of voxels with value strictly greater than 0 minus the sum of all voxel
probabilities, computed over the whole volume; in particular for the
volume `[1, 1, 1/2]` it equals `1/2`. -/
theorem C3_sum_uncertainties :
    (∀ data : Volume,
      sum_uncertainties data =
        ((data.filter fun p => decide (0 < p)).length : ℚ) - data.sum) ∧
    sum_uncertainties [1, 1, 1/2] = 1/2 := by
  constructor
  · intro data
    rfl
  · norm_num [sum_uncertainties, count_nonzero, sum_probabilities]

/-- C4: for every probability volume, `mean_uncertainty` equals the mean
of `1 - p` over the uncertain voxels, and equals 0 (not an error) when the
uncertain set is empty; for uncertain values `[1/5, 1/2, 4/5]` it equals
`1/2`. -/
theorem C4_mean_uncertainty :
    (∀ data : Volume,
      mean_uncertainty data =
        if uncertain_voxels data = [] then 0
        else (((uncertain_voxels data).map fun p => 1 - p).sum) /
          ((uncertain_voxels data).length : ℚ)) ∧
    mean_uncertainty [1/5, 1/2, 4/5] = 1/2 := by
  constructor
  · intro data
    unfold mean_uncertainty
    cases h : uncertain_voxels data with
    | nil => simp [h]
    | cons x xs => simp [h]
  · norm_num [mean_uncertainty, uncertain_voxels, uncertainMask]

/-- C5 counterexample: the three classifier sets do not cover a voxel
whose value is negative — for the volume `[-1]` the single voxel is in
none of `background`, `uncertain`, `certainForeground`, so the partition
invariant fails on volumes with values outside `[0, 1]` below zero. -/
theorem C5_counterexample :
    ¬ (∀ p ∈ ([-1] : Volume),
        backgroundMask p ∨ uncertainMask p ∨ certainFgMask p) := by
  intro h
  have h1 := h (-1) (List.mem_singleton.mpr rfl)
  simp only [backgroundMask, uncertainMask, certainFgMask] at h1
  rcases h1 with h1 | h1 | h1
  · exact absurd h1 (by norm_num)
  · exact absurd h1.1 (by norm_num)
  · exact absurd h1.1 (by norm_num)

/-- C5 (amended): the three classifier sets are pairwise disjoint on every
voxel value, and they cover every voxel whose value is nonnegative
(in particular all values in `[0, 1]` and above 1); a voxel with negative
value lies in none of the three sets. -/
theorem C5_partition :
    (∀ p : ℚ,
      ¬ (backgroundMask p ∧ uncertainMask p) ∧
      ¬ (backgroundMask p ∧ certainFgMask p) ∧
      ¬ (uncertainMask p ∧ certainFgMask p)) ∧
    (∀ data : Volume, (∀ p ∈ data, 0 ≤ p) →
      ∀ p ∈ data, backgroundMask p ∨ uncertainMask p ∨ certainFgMask p) ∧
    (∀ p : ℚ, p < 0 →
      ¬ backgroundMask p ∧ ¬ uncertainMask p ∧ ¬ certainFgMask p) := by
  simp only [backgroundMask, uncertainMask, certainFgMask]
  refine ⟨fun p => ⟨?_, ?_, ?_⟩, fun data h p hp => ?_, fun p hp => ⟨?_, ?_, ?_⟩⟩
  · rintro ⟨h0, h1, -⟩
    rw [h0] at h1
    exact absurd h1 (lt_irrefl 0)
  · rintro ⟨h0, h1, -⟩
    rw [h0] at h1
    exact absurd h1 (lt_irrefl 0)
  · rintro ⟨h1, -, h2⟩
    exact h2 h1
  · rcases lt_or_eq_of_le (h p hp) with hpos | hzero
    · by_cases hu : p < 1
      · exact Or.inr (Or.inl ⟨hpos, hu⟩)
      · exact Or.inr (Or.inr ⟨hpos, fun hc => hu hc.2⟩)
    · exact Or.inl hzero.symm
  · intro h0
    rw [h0] at hp
    exact absurd hp (lt_irrefl 0)
  · exact fun h1 => absurd (hp.trans h1.1) (lt_irrefl p)
  · exact fun h2 => absurd (hp.trans h2.1) (lt_irrefl p)

/-- C5 witness: the amended partition theorem applied to the concrete
volume `[0, 1/2, 1, 3/2]`, whose values are nonnegative (one of them above
1): the voxel with value `3/2` is covered by one of the three sets. -/
theorem C5_partition_witness :
    backgroundMask (3/2 : ℚ) ∨ uncertainMask (3/2) ∨ certainFgMask (3/2) :=
  C5_partition.2.1 [0, 1/2, 1, 3/2] (by norm_num) (3/2) (by norm_num)

/-! ### Uncertainty encoder

`EdgeUncertaintyMaskCreation.py`, `create_uncertainty_mask_with_certain`,
lines 40-101. -/

/-- Minimum of a list of rationals; `np.min` applied to a possibly empty
array (`none` for the empty array, on which `np.min` raises). -/
def listMin : List ℚ → Option ℚ
  | [] => none
  | x :: xs => some (xs.foldl min x)

/-- Maximum of a list of rationals; `np.max` applied to a possibly empty
array (`none` for the empty array, on which `np.max` raises). -/
def listMax : List ℚ → Option ℚ
  | [] => none
  | x :: xs => some (xs.foldl max x)

/-- `uncertainty_values = 1.0 - prob_data[uncertain_mask]` (line 58). -/
def uncertainty_values (data : Volume) : List ℚ :=
  (data.filter fun p => decide (uncertainMask p)).map fun p => 1 - p

/-- `certain_uncertainty_value`: `min_uncertainty * 0.95` when the case
has uncertain voxels (lines 62-63), the fallback `0.01` otherwise
(line 77). -/
def certain_uncertainty_value (data : Volume) : ℚ :=
  match listMin (uncertainty_values data) with
  | some m => m * (95/100)
  | none => 1/100

/-- Value of one voxel of `uncertainty_float` (lines 46, 59, 89): `1 - p`
on the uncertain mask, `certain_uncertainty_value` on the certain
foreground mask, the initial 0 elsewhere. -/
def float_voxel (data : Volume) (p : ℚ) : ℚ :=
  if uncertainMask p then 1 - p
  else if certainFgMask p then certain_uncertainty_value data
  else 0

/-- The continuous (float32) uncertainty array. -/
def uncertainty_float (data : Volume) : List ℚ :=
  data.map (float_voxel data)

/-- `np.clip(x, lo, hi)`. -/
def clipQ (lo hi x : ℚ) : ℚ := max lo (min hi x)

/-- Discrete encoding of a continuous uncertainty array (lines 93-101):
`non_bg_mask = uncertainty_float > 0`; if any such voxel exists and the
maximum over it is positive, each non-background voxel receives
`np.clip(c / max * 254 + 1, 1, 255).astype(np.uint8)` — the `uint8` cast
truncates toward zero, i.e. takes the floor of the clipped value; all
other voxels keep the initial 0. -/
def discretize (cont : List ℚ) : List ℕ :=
  match listMax (cont.filter fun c => decide (0 < c)) with
  | some M =>
      if 0 < M then
        cont.map fun c =>
          if 0 < c then (⌊clipQ 1 255 (c / M * 254 + 1)⌋).toNat else 0
      else cont.map fun _ => 0
  | none => cont.map fun _ => 0

/-- The discrete (uint8) uncertainty array. -/
def uncertainty_uint8 (data : Volume) : List ℕ :=
  discretize (uncertainty_float data)

/-- The discrete encoding as the spec's words describe it, for comparison
with `discretize`: `clip(round(c / maxContinuous × 254) + 1, 1, 255)` on
every voxel with non-zero continuous value, with `maxContinuous` the
maximum continuous value over non-zero voxels. -/
def spec_discrete_encoding (cont : List ℚ) : List ℕ :=
  match listMax (cont.filter fun c => decide (¬ c = 0)) with
  | some M =>
      if 0 < M then
        cont.map fun c =>
          if ¬ c = 0 then (min 255 (max 1 (round (c / M * 254) + 1))).toNat else 0
      else cont.map fun _ => 0
  | none => cont.map fun _ => 0

/-! #### Helper lemmas on list minima and maxima -/

lemma foldl_min_mem : ∀ (xs : List ℚ) (x : ℚ), xs.foldl min x ∈ x :: xs
  | [], x => List.mem_singleton.mpr rfl
  | y :: ys, x => by
    simp only [List.foldl]
    have h := foldl_min_mem ys (min x y)
    rcases List.mem_cons.mp h with h | h
    · rcases min_choice x y with hm | hm
      · exact List.mem_cons.mpr (Or.inl (h.trans hm))
      · exact List.mem_cons.mpr (Or.inr (List.mem_cons.mpr (Or.inl (h.trans hm))))
    · exact List.mem_cons.mpr (Or.inr (List.mem_cons.mpr (Or.inr h)))

lemma foldl_max_mem : ∀ (xs : List ℚ) (x : ℚ), xs.foldl max x ∈ x :: xs
  | [], x => List.mem_singleton.mpr rfl
  | y :: ys, x => by
    simp only [List.foldl]
    have h := foldl_max_mem ys (max x y)
    rcases List.mem_cons.mp h with h | h
    · rcases max_choice x y with hm | hm
      · exact List.mem_cons.mpr (Or.inl (h.trans hm))
      · exact List.mem_cons.mpr (Or.inr (List.mem_cons.mpr (Or.inl (h.trans hm))))
    · exact List.mem_cons.mpr (Or.inr (List.mem_cons.mpr (Or.inr h)))

lemma listMin_mem {l : List ℚ} {m : ℚ} (h : listMin l = some m) : m ∈ l := by
  cases l with
  | nil => simp [listMin] at h
  | cons x xs =>
    simp only [listMin, Option.some.injEq] at h
    exact h ▸ foldl_min_mem xs x

lemma listMax_mem {l : List ℚ} {m : ℚ} (h : listMax l = some m) : m ∈ l := by
  cases l with
  | nil => simp [listMax] at h
  | cons x xs =>
    simp only [listMax, Option.some.injEq] at h
    exact h ▸ foldl_max_mem xs x

lemma le_foldl_max : ∀ (xs : List ℚ) (x a : ℚ), a ∈ x :: xs → a ≤ xs.foldl max x
  | [], x, a, h => le_of_eq (List.mem_singleton.mp h)
  | y :: ys, x, a, h => by
    simp only [List.foldl]
    rcases List.mem_cons.mp h with rfl | h
    · exact (le_max_left a y).trans
        (le_foldl_max ys (max a y) (max a y) (List.mem_cons.mpr (Or.inl rfl)))
    · rcases List.mem_cons.mp h with rfl | h
      · exact (le_max_right x a).trans
          (le_foldl_max ys (max x a) (max x a) (List.mem_cons.mpr (Or.inl rfl)))
      · exact le_foldl_max ys (max x y) a (List.mem_cons.mpr (Or.inr h))

lemma le_listMax {l : List ℚ} {M a : ℚ} (hM : listMax l = some M) (ha : a ∈ l) :
    a ≤ M := by
  cases l with
  | nil => simp at ha
  | cons x xs =>
    simp only [listMax, Option.some.injEq] at hM
    exact hM ▸ le_foldl_max xs x a ha

/-- Every entry of `uncertainty_values` is strictly positive. -/
lemma uncertainty_values_pos {data : Volume} {v : ℚ}
    (h : v ∈ uncertainty_values data) : 0 < v := by
  rcases List.mem_map.mp h with ⟨p, hp, rfl⟩
  have := (List.mem_filter.mp hp).2
  rw [decide_eq_true_eq] at this
  linarith [this.2]

/-- The certain-foreground policy value is strictly positive. -/
lemma certain_uncertainty_value_pos (data : Volume) :
    0 < certain_uncertainty_value data := by
  unfold certain_uncertainty_value
  cases h : listMin (uncertainty_values data) with
  | none => norm_num
  | some m =>
    have hm := uncertainty_values_pos (listMin_mem h)
    positivity

/-! ### Claims C1, C8, C2 -/

/-- C1: for every case, every certain-foreground voxel of the continuous
array holds `0.95` times the minimum of `1 - p` over the case's uncertain
voxels when at least one uncertain voxel exists, and the fallback
constant `0.01` when the uncertain set is empty. -/
theorem C1_certain_value_policy :
    ∀ (data : Volume) (i : ℕ) (p : ℚ), data[i]? = some p → certainFgMask p →
      ((∀ m : ℚ, listMin (uncertainty_values data) = some m →
          (uncertainty_float data)[i]? = some (m * (95/100))) ∧
       (listMin (uncertainty_values data) = none →
          (uncertainty_float data)[i]? = some (1/100))) := by
  intro data i p hp hfg
  have hval : (uncertainty_float data)[i]? = some (float_voxel data p) := by
    rw [uncertainty_float, List.getElem?_map, hp, Option.map_some']
  have hfv : float_voxel data p = certain_uncertainty_value data := by
    unfold float_voxel
    rw [if_neg hfg.2, if_pos hfg]
  constructor
  · intro m hm
    rw [hval, hfv]
    simp only [certain_uncertainty_value, hm]
  · intro hm
    rw [hval, hfv]
    simp only [certain_uncertainty_value, hm]

/-- C1 witness: for the volume `[0, 9/10, 1]` the unique uncertain voxel
has uncertainty `1/10`, and the certain-foreground voxel at index 2
encodes to `1/10 * 0.95 = 19/200 = 0.095`. -/
theorem C1_certain_value_policy_witness :
    (uncertainty_float [0, 9/10, 1])[2]? = some (19/200) := by
  have h := (C1_certain_value_policy [0, 9/10, 1] 2 1 rfl
      (by norm_num [certainFgMask, uncertainMask])).1 (1/10)
      (by norm_num [uncertainty_values, uncertainMask, listMin])
  have he : (1/10 : ℚ) * (95/100) = 19/200 := by norm_num
  rwa [he] at h

/-- C8: for every case, a position of the continuous array holds a
non-zero value exactly when the source voxel there is uncertain or
certain foreground. -/
theorem C8_roundtrip :
    ∀ (data : Volume) (i : ℕ) (p : ℚ), data[i]? = some p →
      ((∃ v, (uncertainty_float data)[i]? = some v ∧ v ≠ 0) ↔
        (uncertainMask p ∨ certainFgMask p)) := by
  intro data i p hp
  have hval : (uncertainty_float data)[i]? = some (float_voxel data p) := by
    rw [uncertainty_float, List.getElem?_map, hp, Option.map_some']
  rw [hval]
  constructor
  · rintro ⟨v, hv, hv0⟩
    rw [Option.some.injEq] at hv
    subst hv
    by_contra hn
    push_neg at hn
    have hz : float_voxel data p = 0 := by
      unfold float_voxel
      rw [if_neg hn.1, if_neg hn.2]
    exact hv0 hz
  · rintro (h | h)
    · refine ⟨1 - p, ?_, sub_ne_zero.mpr (ne_of_gt h.2)⟩
      unfold float_voxel
      rw [if_pos h]
    · refine ⟨certain_uncertainty_value data, ?_,
        ne_of_gt (certain_uncertainty_value_pos data)⟩
      unfold float_voxel
      rw [if_neg h.2, if_pos h]

/-- C8 witness: for the volume `[1/2]` the voxel at index 0 is uncertain,
and the continuous array indeed holds a non-zero value there. -/
theorem C8_roundtrip_witness :
    ∃ v, (uncertainty_float [(1/2 : ℚ)])[0]? = some v ∧ v ≠ 0 :=
  (C8_roundtrip [1/2] 0 (1/2) rfl).mpr (Or.inl (by norm_num [uncertainMask]))

/-- C2 counterexample: for the volume `[1/2, 1777/2540]` the continuous
array is `[1/2, 763/2540]` and the scaled value of the second voxel is
`152.6 + 1 = 153.6`; the code truncates it to 153 while the claim's
formula `clip(round(c / max × 254) + 1, 1, 255)` yields `153 + 1 = 154`,
so the claimed rounding rule does not match the code. -/
theorem C2_counterexample :
    uncertainty_uint8 [1/2, 1777/2540] = [255, 153] ∧
    spec_discrete_encoding (uncertainty_float [1/2, 1777/2540]) = [255, 154] := by
  have hfl : uncertainty_float [1/2, 1777/2540] = [1/2, 763/2540] := by
    norm_num [uncertainty_float, float_voxel, uncertainMask, certainFgMask]
  have hmax : listMax ([(1/2 : ℚ), 763/2540].filter fun x => decide (0 < x)) =
      some (1/2) := by
    norm_num [listMax, max_def]
  have hmax' : listMax ([(1/2 : ℚ), 763/2540].filter fun x => decide (¬ x = 0)) =
      some (1/2) := by
    norm_num [listMax, max_def]
  constructor
  · rw [uncertainty_uint8, hfl]
    simp only [discretize, hmax]
    rw [if_pos (by norm_num : (0:ℚ) < 1/2)]
    norm_num [clipQ, max_def, min_def]
    decide
  · rw [hfl]
    simp only [spec_discrete_encoding, hmax']
    rw [if_pos (by norm_num : (0:ℚ) < 1/2)]
    norm_num [round_eq, max_def, min_def]
    decide

/-- C2 (amended): for every case, with `maxContinuous` the maximum
continuous value over positive-continuous voxels, every voxel whose
continuous value `c` is positive is assigned
`clip(⌊c / maxContinuous × 254⌋ + 1, 1, 255)` — the scaled value is
truncated by the `uint8` cast, not rounded to nearest — every other voxel
is assigned 0, and when no voxel has positive continuous value the
discrete array stays all-zero. -/
theorem C2_discrete_encoding :
    ∀ data : Volume,
      (∀ (i : ℕ) (c M : ℚ), (uncertainty_float data)[i]? = some c →
        listMax ((uncertainty_float data).filter fun x => decide (0 < x)) =
          some M →
        (uncertainty_uint8 data)[i]? =
          some (if 0 < c then (min 255 (max 1 (⌊c / M * 254⌋ + 1))).toNat
            else 0)) ∧
      (listMax ((uncertainty_float data).filter fun x => decide (0 < x)) =
          none →
        uncertainty_uint8 data = (uncertainty_float data).map fun _ => 0) := by
  intro data
  constructor
  · intro i c M hc hM
    have hMpos : 0 < M := by
      have := (List.mem_filter.mp (listMax_mem hM)).2
      rwa [decide_eq_true_eq] at this
    rw [uncertainty_uint8]
    simp only [discretize, hM]
    rw [if_pos hMpos, List.getElem?_map, hc, Option.map_some']
    by_cases hcpos : 0 < c
    · rw [if_pos hcpos, if_pos hcpos]
      have hcM : c ≤ M := le_listMax hM
        (List.mem_filter.mpr ⟨List.getElem?_mem hc, by
          rw [decide_eq_true_eq]; exact hcpos⟩)
      have hdivle : c / M ≤ 1 := (div_le_one hMpos).mpr hcM
      have hxpos : 0 < c / M * 254 := by positivity
      have hxle : c / M * 254 ≤ 254 := by
        calc c / M * 254 ≤ 1 * 254 :=
              mul_le_mul_of_nonneg_right hdivle (by norm_num)
          _ = 254 := one_mul 254
      have hclip : clipQ 1 255 (c / M * 254 + 1) = c / M * 254 + 1 := by
        unfold clipQ
        rw [min_eq_right (by linarith), max_eq_right (by linarith)]
      have h1 : 1 ≤ ⌊c / M * 254⌋ + 1 := by
        have h0 : (0:ℤ) ≤ ⌊c / M * 254⌋ := Int.floor_nonneg.mpr (le_of_lt hxpos)
        omega
      have h2 : ⌊c / M * 254⌋ + 1 ≤ 255 := by
        have hmono : ⌊c / M * 254⌋ ≤ ⌊(254:ℚ)⌋ := Int.floor_le_floor hxle
        norm_num at hmono
        omega
      rw [hclip, Int.floor_add_one, max_eq_right h1, min_eq_right h2]
    · rw [if_neg hcpos, if_neg hcpos]
  · intro hM
    rw [uncertainty_uint8]
    simp only [discretize, hM]

/-- C2 witness: the spec's own example — a case whose maximum continuous
value is `0.8` and a voxel with continuous value `0.4` (volume
`[1/5, 3/5]`) receives discrete value `127 + 1 = 128`. -/
theorem C2_discrete_encoding_witness :
    (uncertainty_uint8 [1/5, 3/5])[1]? = some 128 := by
  have hfl : uncertainty_float [1/5, 3/5] = [4/5, 2/5] := by
    norm_num [uncertainty_float, float_voxel, uncertainMask, certainFgMask]
  have h := (C2_discrete_encoding [1/5, 3/5]).1 1 (2/5) (4/5)
    (by rw [hfl]; rfl) (by rw [hfl]; norm_num [listMax, max_def])
  rw [h]
  norm_num [max_def, min_def]
  decide

/-! ### Case ranker

`EdgeUncertaintyAnalysis.py`, `process_all_masks`, lines 212-225:
`df.sort_values(metric, ascending=False).reset_index(drop=True)` followed
by `df['difficulty_rank'] = range(1, len(df) + 1)`. -/

/-- A row of the per-case metric table: case identifier and the selected
metric's value. -/
abbrev CaseRow := String × ℚ

instance : IsTotal CaseRow (fun a b => a.2 ≤ b.2) :=
  ⟨fun a b => le_total a.2 b.2⟩

instance : IsTrans CaseRow (fun a b => a.2 ≤ b.2) :=
  ⟨fun _ _ _ h1 h2 => le_trans h1 h2⟩

/-- `df.sort_values(metric, ascending=False)`: pandas performs a stable
ascending argsort of the column (numpy's sort is insertion sort on the
small inputs considered here) and then reverses the resulting order. -/
def sort_values_descending (rows : List CaseRow) : List CaseRow :=
  (rows.insertionSort fun a b => a.2 ≤ b.2).reverse

/-- `df['difficulty_rank'] = range(1, len(df) + 1)`: each sorted row is
paired with its 1-based position. -/
def assign_ranks (rows : List CaseRow) : List (CaseRow × ℕ) :=
  (sort_values_descending rows).zip (List.range' 1 rows.length)

/-- The ranker as the spec's words describe it, for comparison with
`assign_ranks`: a stable descending sort, ties kept in case-identifier
enumeration order. -/
def spec_assign_ranks (rows : List CaseRow) : List (CaseRow × ℕ) :=
  (rows.insertionSort fun a b => b.2 ≤ a.2).zip (List.range' 1 rows.length)

/-- C6 counterexample: on the two tied rows `("A", 1), ("B", 1)` the code
ranks the later-enumerated case "B" first — the descending order is
produced by reversing a stable ascending sort, so ties come out in
reverse enumeration order, not the claimed enumeration order. -/
theorem C6_counterexample :
    assign_ranks [("A", 1), ("B", 1)] = [(("B", 1), 1), (("A", 1), 2)] ∧
    assign_ranks [("A", 1), ("B", 1)] ≠ spec_assign_ranks [("A", 1), ("B", 1)] := by
  constructor
  · rfl
  · intro h
    have h0 := congrArg (fun l => l[0]?) h
    simp [assign_ranks, spec_assign_ranks, sort_values_descending,
      List.insertionSort, List.orderedInsert, List.range'] at h0

/-- C6 (amended): for every metric table the ranker deterministically
sorts by the selected metric value descending and assigns rank = 1-based
sort position, so the sorted rows are a permutation of the input, the
assigned ranks are exactly 1..N (a bijection, no duplicates or gaps), and
re-ranking identical input yields identical assignments; however ties are
broken by reverse case-identifier enumeration order (the sort reverses a
stable ascending sort), not by enumeration order. -/
theorem C6_ranking :
    ∀ rows : List CaseRow,
      (sort_values_descending rows).Perm rows ∧
      List.Pairwise (fun a b : CaseRow => b.2 ≤ a.2)
        (sort_values_descending rows) ∧
      (assign_ranks rows).map Prod.fst = sort_values_descending rows ∧
      (assign_ranks rows).map Prod.snd = List.range' 1 rows.length ∧
      assign_ranks rows = assign_ranks rows := by
  intro rows
  have hlen : (sort_values_descending rows).length = rows.length := by
    rw [sort_values_descending, List.length_reverse, List.length_insertionSort]
  refine ⟨?_, ?_, ?_, ?_, rfl⟩
  · exact (List.reverse_perm _).trans (List.perm_insertionSort _ rows)
  · rw [sort_values_descending]
    exact List.pairwise_reverse.mpr
      (List.sorted_insertionSort (fun a b : CaseRow => a.2 ≤ b.2) rows)
  · rw [assign_ranks]
    exact List.map_fst_zip _ _ (by rw [hlen, List.length_range'])
  · rw [assign_ranks]
    exact List.map_snd_zip _ _ (by rw [hlen, List.length_range'])

/-! ### Selection policy

`EdgeUncertaintyMaskCreation.py`, `generate_enhanced_uncertainty_masks`,
lines 278-297. -/

/-- pandas `df.tail(n)`: the last `n` rows (all rows when `n` exceeds the
table length). -/
def tail_n (n : ℕ) (df : List CaseRow) : List CaseRow :=
  df.drop (df.length - n)

/-- The selection of most- and least-difficult cases:
`most_difficult = df.head(top_n)`;
`non_zero_cases = df[df[metric_col] > 0]`;
`least_difficult = non_zero_cases.tail(top_n)` when
`len(non_zero_cases) >= top_n`, else `df.tail(top_n)`. -/
def select_cases (df : List CaseRow) (top_n : ℕ) :
    List CaseRow × List CaseRow :=
  let most_difficult := df.take top_n
  let non_zero_cases := df.filter fun r => decide (0 < r.2)
  let least_difficult :=
    if top_n ≤ non_zero_cases.length then tail_n top_n non_zero_cases
    else tail_n top_n df
  (most_difficult, least_difficult)

/-- C7 counterexample: for the ranked table `[("A",5), ("B",3)]` and
N = 2 the two returned sequences coincide (both contain case "A"), so the
claimed disjointness of most-difficult and least-difficult fails. -/
theorem C7_counterexample :
    (select_cases [("A", 5), ("B", 3)] 2).1 = [("A", 5), ("B", 3)] ∧
    (select_cases [("A", 5), ("B", 3)] 2).2 = [("A", 5), ("B", 3)] ∧
    ("A", (5 : ℚ)) ∈ (select_cases [("A", 5), ("B", 3)] 2).1 ∧
    ("A", (5 : ℚ)) ∈ (select_cases [("A", 5), ("B", 3)] 2).2 := by
  refine ⟨rfl, rfl, ?_, ?_⟩ <;> decide

/-- C7 (amended): for every ranked table and count N the policy returns
most-difficult = the first N rows and least-difficult = the last N rows
among the cases with metric value strictly greater than 0 when at least N
such cases exist, otherwise the last N rows of the full table; the two
sequences are not disjoint in general (they overlap whenever fewer than
2N rows, or fewer than 2N positive-metric rows, are available). The
concrete conjuncts are the spec's examples: descending values
`[5, 2, 1, 0]` with N = 2 select the cases valued 2 and 1 (not the
zero-valued case), `[5, 3, 0, 0]` select the two positive cases, and
`[5, 0, 0]` fall back to the zero-valued tail. -/
theorem C7_selection :
    (∀ (df : List CaseRow) (n : ℕ),
      (select_cases df n).1 = df.take n ∧
      (select_cases df n).2 =
        (if n ≤ (df.filter fun r => decide (0 < r.2)).length
         then tail_n n (df.filter fun r => decide (0 < r.2))
         else tail_n n df)) ∧
    (select_cases [("d", 5), ("c", 2), ("b", 1), ("a", 0)] 2).2 =
      [("c", 2), ("b", 1)] ∧
    (select_cases [("d", 5), ("c", 3), ("b", 0), ("a", 0)] 2).2 =
      [("d", 5), ("c", 3)] ∧
    (select_cases [("d", 5), ("b", 0), ("a", 0)] 2).2 =
      [("b", 0), ("a", 0)] := by
  refine ⟨fun df n => ⟨rfl, rfl⟩, ?_, ?_, ?_⟩ <;> decide

/-! ### Output metadata

`EdgeUncertaintyMaskCreation.py`, lines 107-115. -/

/-- NIfTI data-type codes relevant here. -/
inductive DType where
  | float32
  | float64
  | uint8
deriving DecidableEq

/-- The metadata of a NIfTI volume: the affine, the header's data-type
field, and the remaining (opaque) header and spatial fields, which the
encoder never touches. -/
structure NiftiMeta (A S : Type) where
  affine : A
  datatypeField : DType
  spatial : S
deriving DecidableEq

/-- `nib.Nifti1Image(uncertainty_float, nii_img.affine, nii_img.header)`
followed by `header.set_data_dtype(np.float32)` (lines 108-109): the
source metadata with the data-type field overwritten. -/
def float_output_meta {A S : Type} (src : NiftiMeta A S) : NiftiMeta A S :=
  { src with datatypeField := DType.float32 }

/-- `nib.Nifti1Image(uncertainty_uint8, nii_img.affine, nii_img.header)`
followed by `header.set_data_dtype(np.uint8)` (lines 113-114). -/
def uint8_output_meta {A S : Type} (src : NiftiMeta A S) : NiftiMeta A S :=
  { src with datatypeField := DType.uint8 }

/-- C9 counterexample: for a source whose header data-type field is
float32, the discrete output's header holds uint8, so the output header
is not identical to the source header and a metadata field did change. -/
theorem C9_counterexample :
    uint8_output_meta (NiftiMeta.mk (0 : ℕ) DType.float32 (0 : ℕ)) ≠
      NiftiMeta.mk (0 : ℕ) DType.float32 (0 : ℕ) := by
  decide

/-- C9 (amended): the affine and all untouched header/spatial fields are
propagated unchanged onto both output volumes, but the header's data-type
field is rewritten — to float32 on the continuous output and to uint8 on
the discrete output — so the outputs' headers differ from the source
header in that one field. -/
theorem C9_metadata :
    ∀ {A S : Type} (src : NiftiMeta A S),
      (float_output_meta src).affine = src.affine ∧
      (float_output_meta src).spatial = src.spatial ∧
      (float_output_meta src).datatypeField = DType.float32 ∧
      (uint8_output_meta src).affine = src.affine ∧
      (uint8_output_meta src).spatial = src.spatial ∧
      (uint8_output_meta src).datatypeField = DType.uint8 :=
  fun _ => ⟨rfl, rfl, rfl, rfl, rfl, rfl⟩

/-! ### Batch orchestration

`EdgeUncertaintyAnalysis.py`, `calculate_edge_fuzziness` (the enclosing
try/except, lines 61-64 and 155-157) and `process_all_masks`
(lines 180-203). -/

/-- The per-case record of the three metrics. -/
structure CaseMetrics where
  mean_uncertainty : ℚ
  sum_uncertainties : ℚ
  count_uncertain : ℕ
deriving DecidableEq

/-- `calculate_edge_fuzziness`: loading the source volume may raise; the
surrounding try/except catches the exception and returns `None`
(modelled by a reader returning `none`); otherwise the three metrics are
computed and returned. -/
def calculate_edge_fuzziness (reader : String → Option Volume)
    (path : String) : Option CaseMetrics :=
  match reader path with
  | none => none
  | some data =>
      some ⟨mean_uncertainty data, sum_uncertainties data, count_uncertain data⟩

/-- The main loop of `process_all_masks`: for each (case id, path) pair
the metrics are computed; a successful result is appended to `results`,
a `None` result records the case as failed and the loop continues. -/
def process_all_masks (reader : String → Option Volume) :
    List (String × String) → List (String × CaseMetrics) × List String
  | [] => ([], [])
  | c :: rest =>
    match calculate_edge_fuzziness reader c.2 with
    | some result =>
        ((c.1, result) :: (process_all_masks reader rest).1,
         (process_all_masks reader rest).2)
    | none =>
        ((process_all_masks reader rest).1,
         c.1 :: (process_all_masks reader rest).2)

lemma process_all_masks_results (reader : String → Option Volume) :
    ∀ cases : List (String × String),
      (process_all_masks reader cases).1 =
        cases.filterMap fun c =>
          (calculate_edge_fuzziness reader c.2).map fun r => (c.1, r)
  | [] => rfl
  | c :: rest => by
    rw [process_all_masks, List.filterMap_cons]
    cases h : calculate_edge_fuzziness reader c.2 with
    | none => simpa [h] using process_all_masks_results reader rest
    | some r => simpa [h] using process_all_masks_results reader rest

lemma process_all_masks_failures (reader : String → Option Volume) :
    ∀ cases : List (String × String),
      (process_all_masks reader cases).2 =
        (cases.filter fun c =>
          (calculate_edge_fuzziness reader c.2).isNone).map Prod.fst
  | [] => rfl
  | c :: rest => by
    rw [process_all_masks, List.filter_cons]
    cases h : calculate_edge_fuzziness reader c.2 with
    | none => simpa [h] using process_all_masks_failures reader rest
    | some r => simpa [h] using process_all_masks_failures reader rest

/-- C10: for every reader and batch, the collected results are exactly the
successfully processed cases in order and the failures are exactly the
cases whose metric computation raised; a failing case is recorded among
the failures and (for distinct case identifiers) excluded from the result
table, while every other case is still processed — one case's failure
never aborts the batch. -/
theorem C10_batch :
    ∀ (reader : String → Option Volume) (cases : List (String × String)),
      (process_all_masks reader cases).1 =
        (cases.filterMap fun c =>
          (calculate_edge_fuzziness reader c.2).map fun r => (c.1, r)) ∧
      (process_all_masks reader cases).2 =
        ((cases.filter fun c =>
          (calculate_edge_fuzziness reader c.2).isNone).map Prod.fst) ∧
      (∀ c ∈ cases, calculate_edge_fuzziness reader c.2 = none →
        c.1 ∈ (process_all_masks reader cases).2) ∧
      (∀ c ∈ cases, ∀ r : CaseMetrics,
        calculate_edge_fuzziness reader c.2 = some r →
        (c.1, r) ∈ (process_all_masks reader cases).1) ∧
      (∀ c ∈ cases, calculate_edge_fuzziness reader c.2 = none →
        (cases.map Prod.fst).Nodup →
        c.1 ∉ (process_all_masks reader cases).1.map Prod.fst) := by
  intro reader cases
  refine ⟨process_all_masks_results reader cases,
    process_all_masks_failures reader cases, ?_, ?_, ?_⟩
  · intro c hc h
    rw [process_all_masks_failures reader cases]
    exact List.mem_map.mpr ⟨c, List.mem_filter.mpr ⟨hc, by rw [h]; rfl⟩, rfl⟩
  · intro c hc r h
    rw [process_all_masks_results reader cases]
    exact List.mem_filterMap.mpr ⟨c, hc, by rw [h]; rfl⟩
  · intro c hc h hnodup hmem
    rw [process_all_masks_results reader cases] at hmem
    rcases List.mem_map.mp hmem with ⟨pr, hpr, hfst⟩
    rcases List.mem_filterMap.mp hpr with ⟨a, ha, hcalc⟩
    cases hra : calculate_edge_fuzziness reader a.2 with
    | none => rw [hra] at hcalc; exact Option.noConfusion hcalc
    | some r =>
      rw [hra] at hcalc
      rw [Option.map_some', Option.some.injEq] at hcalc
      have hfa : a.1 = c.1 := by rw [← hcalc] at hfst; exact hfst
      have hac : a = c := List.inj_on_of_nodup_map hnodup ha hc hfa
      rw [hac] at hra
      rw [h] at hra
      exact Option.noConfusion hra

/-- C10 witness: in a batch of three cases where the middle case's source
cannot be read, the failing case is recorded among the failures and both
remaining cases are still processed. -/
theorem C10_batch_witness :
    "B" ∈ (process_all_masks
        (fun p => if p = "pB" then none else some [1/2])
        [("A", "pA"), ("B", "pB"), ("C", "pC")]).2 ∧
    ("C", CaseMetrics.mk (1/2) (1/2) 1) ∈ (process_all_masks
        (fun p => if p = "pB" then none else some [1/2])
        [("A", "pA"), ("B", "pB"), ("C", "pC")]).1 := by
  constructor
  · exact (C10_batch (fun p => if p = "pB" then none else some [1/2])
      [("A", "pA"), ("B", "pB"), ("C", "pC")]).2.2.1 ("B", "pB")
      (by simp) (by simp [calculate_edge_fuzziness])
  · exact (C10_batch (fun p => if p = "pB" then none else some [1/2])
      [("A", "pA"), ("B", "pB"), ("C", "pC")]).2.2.2.1 ("C", "pC")
      (by simp) ⟨1/2, 1/2, 1⟩
      (by
        simp only [calculate_edge_fuzziness, String.reduceEq, reduceIte]
        norm_num [mean_uncertainty, uncertain_voxels, uncertainMask,
          sum_uncertainties, count_nonzero, sum_probabilities,
          count_uncertain])

end MaskAnalysis
